import Mathlib

/-!
# Verification of the agent-showcase data-merge build step

Shallow embedding of `src/scripts/build-data.js`: the catalog extractor,
the connection-index construction, the reconciler/merger and the emitter,
together with proofs of the specified properties.

Conventions of the embedding:
* A JavaScript string is a Lean `String` (a list of Unicode scalar values).
* `undefined`-able values are `Option`s; the JavaScript `x || d` idiom on
  strings (where both `undefined` and the empty string are falsy) is the
  function `jsOr`.
* A JavaScript object used as a dictionary is an association list
  `List (String × α)` read through `alookup`; insertion order is the list
  order, matching JavaScript's key-insertion enumeration order.
* A JavaScript `Set` is a duplicate-free `List` in insertion order.
* File contents that the script reads are parameters; file writes are the
  returned artifacts; a read/parse failure makes the whole build an
  `Except.error` (the script throws before any `writeFileSync` runs).
-/

/-- `jsOr o d` models the JavaScript expression `o || d` for a possibly
`undefined` string `o`: both `undefined` and `""` are falsy. -/
def jsOr (o : Option String) (d : String) : String :=
  match o with
  | none => d
  | some s => if s = "" then d else s

/-- Association-list lookup, modelling `obj[key]` on a JS dictionary. -/
def alookup {α : Type} (k : String) : List (String × α) → Option α
  | [] => none
  | (k', v) :: tl => if k' = k then some v else alookup k tl

/-! ## Source 1: the agent catalog (`parseCatalog`, lines 17–37)

The extractor scans the catalog text with a head regex matching
`{ id: '…', name: '…', category: '…', desc: '…'(, deploy: '…')? }` blocks.
A `Block` is one such match: the five head captures plus what the two
follow-up searches would find *inside this block's text region* (from this
match's start up to the next match's start):

* `kwRaw = some ks` iff the region contains a `keywords: [ … ]` pattern
  with non-empty bracket content (the regex needs `[^\]]+`), `ks` being its
  quoted tokens;
* `usageRaw` likewise for the first `usage: [ … ]` pattern, whose bracket
  content may also be empty (`[\s\S]*?`).

Crucially, the script searches `src.substring(m.index)` — the suffix of the
*whole file* from the current match on — so when a block's own region has
no such pattern the search falls through to later blocks.  `scanKw` /
`scanUsage` reproduce exactly that forward scan over the block list. -/

structure Block where
  id : String
  name : String
  category : String
  desc : String
  deploy : Option String
  kwRaw : Option (List String)
  usageRaw : Option (List String)
deriving Repr, DecidableEq

structure AgentRecord where
  id : String
  name : String
  category : String
  desc : String
  deploy : String
  usage : List String
  keywords : List String
deriving Repr, DecidableEq

/-- One pass of `.replace(/&lt;/g, '<')`: leftmost-first, non-overlapping. -/
def replaceLt : List Char → List Char
  | '&' :: 'l' :: 't' :: ';' :: tl => '<' :: replaceLt tl
  | c :: tl => c :: replaceLt tl
  | [] => []

/-- One pass of `.replace(/&gt;/g, '>')`. -/
def replaceGt : List Char → List Char
  | '&' :: 'g' :: 't' :: ';' :: tl => '>' :: replaceGt tl
  | c :: tl => c :: replaceGt tl
  | [] => []

/-- The usage-token cleanup `u.replace(/&lt;/g,'<').replace(/&gt;/g,'>')`. -/
def unescapeEntities (s : String) : String :=
  String.mk (replaceGt (replaceLt s.data))

/-- Forward scan for the first `keywords: [...]` pattern at or after the
current block (`src.substring(m.index).match(/keywords:\s*\[([^\]]+)\]/)`),
falling back to `[]` when no later text has one. -/
def scanKw : List Block → List String
  | [] => []
  | b :: tl =>
    match b.kwRaw with
    | some ks => ks
    | none => scanKw tl

/-- Forward scan for the first `usage: [...]` pattern at or after the
current block. -/
def scanUsage : List Block → List String
  | [] => []
  | b :: tl =>
    match b.usageRaw with
    | some us => us
    | none => scanUsage tl

/-- Builds the `AgentRecord` pushed for one head-regex match, `scope` being
the block list starting at this match (the text suffix the two follow-up
searches run on). -/
def mkAgent (b : Block) (scope : List Block) : AgentRecord :=
  { id := b.id
    name := b.name
    category := b.category
    desc := b.desc
    deploy := jsOr b.deploy "Local"
    usage := (scanUsage scope).map unescapeEntities
    keywords := scanKw scope }

/-- `parseCatalog`: one record per head-regex match, in scan order. -/
def parseCatalog : List Block → List AgentRecord
  | [] => []
  | b :: tl => mkAgent b (b :: tl) :: parseCatalog tl

/-! ## Fixed lookup tables (lines 88–109) -/

def CATEGORY_ICONS : List (String × String) :=
  [("Production", "🏭"), ("Infrastructure", "🔧"), ("Content", "📝"),
   ("Development", "💻"), ("Business", "💼"), ("Finance", "💰"),
   ("Analytics", "📊"), ("Learning", "📚"), ("Orchestration", "🔗")]

def DEPLOY_NORMALIZE : List (String × String) :=
  [("Railway", "Railway"), ("Render + GitHub Pages", "Render"),
   ("Render", "Render"), ("Cloudflare Worker", "Cloudflare"),
   ("WSL systemd", "WSL"), ("로컬", "Local"), ("Local", "Local")]

/-! ## Connection index (lines 120–129) -/

/-- One entry of `architecture-map.json`'s `connections` array. -/
structure Edge where
  from_ : String
  to_ : List String
deriving Repr, DecidableEq

/-- The connection index: JS object mapping node id to a `Set` of ids,
modelled as an association list of duplicate-free insertion-ordered lists. -/
abbrev ConnIndex := List (String × List String)

/-- `if (!connectionIndex[k]) connectionIndex[k] = new Set()`. -/
def ciEnsure (ci : ConnIndex) (k : String) : ConnIndex :=
  if (alookup k ci).isSome then ci else ci ++ [(k, [])]

/-- `connectionIndex[k].add(v)` — a no-op when `k` is absent (the script
always ensures the key first).  `Set.add` appends the element unless it is
already present. -/
def ciAdd (ci : ConnIndex) (k v : String) : ConnIndex :=
  ci.map (fun p => (p.1, if p.1 = k then (if v ∈ p.2 then p.2 else p.2 ++ [v]) else p.2))

/-- The inner loop body for one target `t` of an edge from `f`:
`ci[f].add(t); if (!ci[t]) ci[t] = new Set(); ci[t].add(f)`. -/
def ciStep (f : String) (ci : ConnIndex) (t : String) : ConnIndex :=
  ciAdd (ciEnsure (ciAdd ci f t) t) t f

/-- The whole index construction over `archMap.connections`. -/
def connectionIndex (conns : List Edge) : ConnIndex :=
  conns.foldl (fun ci e => e.to_.foldl (ciStep e.from_) (ciEnsure ci e.from_)) []

/-- Adjacency lookup as the merge step uses it:
`connectionIndex[id] ? [...connectionIndex[id]] : []`. -/
def ciNeighbors (ci : ConnIndex) (k : String) : List String :=
  (alookup k ci).getD []

/-! ## Remaining data model -/

structure Subagent where
  model : String
  tools : List String
deriving Repr, DecidableEq

/-- A parsed portfolio block (`parsePortfolio` output values). -/
structure Project where
  title : String
  oneliner : String
  highlights : List String
  tags : List String
  inMaster : Bool
deriving Repr, DecidableEq

/-- The `project` sub-object the merge step builds (drops `oneliner`). -/
structure ProjectOut where
  title : String
  highlights : List String
  tags : List String
  inMaster : Bool
deriving Repr, DecidableEq

structure MergedAgent where
  id : String
  name : String
  category : String
  categoryIcon : String
  description : String
  deploy : String
  usage : List String
  keywords : List String
  type : String
  subagent : Option Subagent
  project : Option ProjectOut
  connections : List String
deriving Repr, DecidableEq

structure Category where
  id : String
  name : String
  icon : String
  count : Nat
deriving Repr, DecidableEq

structure Counts where
  agents : Nat
  subagents : Nat
  projects : Nat
  categories : Nat
  deployTargets : Nat
deriving Repr, DecidableEq

structure Meta where
  generatedAt : String
  counts : Counts
deriving Repr, DecidableEq

structure Data where
  meta : Meta
  categories : List Category
  deployTargets : List String
  agents : List MergedAgent
deriving Repr, DecidableEq

/-- The keyword filter's character test, `/[ㄱ-힝]/.test` on one
character: true iff the character lies in U+3131–U+D79D (Hangul
compatibility Jamo through the Hangul-syllable range, taking in the CJK
blocks between). -/
def inFilteredRange (c : Char) : Bool :=
  decide (0x3131 ≤ c.toNat ∧ c.toNat ≤ 0xD79D)

/-- `/[ㄱ-힝]/.test(k)`. -/
def hasFilteredChar (k : String) : Bool :=
  k.data.any inFilteredRange

/-- The body of the `catalogAgents.map` at lines 132–155. -/
def mergeAgent (translations : List (String × String)) (ci : ConnIndex)
    (subagents : List (String × Subagent)) (portfolio : List (String × Project))
    (a : AgentRecord) : MergedAgent :=
  let sub := alookup a.id subagents
  let proj := alookup a.id portfolio
  let conns := ciNeighbors ci a.id
  { id := a.id
    name := a.name
    category := a.category
    categoryIcon := jsOr (alookup a.category CATEGORY_ICONS) "📦"
    description := jsOr (alookup a.id translations) a.desc
    deploy := jsOr (alookup a.deploy DEPLOY_NORMALIZE) a.deploy
    usage := a.usage
    keywords := a.keywords.filter (fun k => !hasFilteredChar k)
    type := if sub.isSome then "subagent" else "standalone"
    subagent := sub
    project := proj.map (fun p =>
      { title := p.title, highlights := p.highlights
        tags := p.tags, inMaster := p.inMaster })
    connections := conns }

/-- `catCounts[a.category] = (catCounts[a.category] || 0) + 1`. -/
def bumpCount (counts : List (String × Nat)) (k : String) : List (String × Nat) :=
  if (alookup k counts).isSome then
    counts.map (fun p => if p.1 = k then (p.1, p.2 + 1) else p)
  else
    counts ++ [(k, 1)]

/-- `[...new Set(l)]`: deduplicate keeping first occurrences, in order. -/
def dedupFirst (l : List String) : List String :=
  l.foldl (fun acc d => if d ∈ acc then acc else acc ++ [d]) []

/-- Lexicographic order on character lists by scalar value, the default
`Array.prototype.sort()` string comparison. -/
def strListLe : List Char → List Char → Bool
  | [], _ => true
  | _ :: _, [] => false
  | a :: as, b :: bs =>
    if a.toNat < b.toNat then true
    else if b.toNat < a.toNat then false
    else strListLe as bs

def strLe (s t : String) : Bool := strListLe s.data t.data

/-- Insertion into a `strLe`-sorted list of strings. -/
def insertSorted (s : String) : List String → List String
  | [] => [s]
  | x :: tl => if strLe s x then s :: x :: tl else x :: insertSorted s tl

/-- `Array.prototype.sort()` on distinct strings: the `strLe`-sorted
rearrangement (lexicographic by scalar value). -/
def sortStrings (l : List String) : List String :=
  l.foldr insertSorted []

/-- All inputs the build consumes, already read and parsed: the two
reference tables, the catalog blocks, the other two extractor outputs and
the clock reading used for `meta.generatedAt`. -/
structure BuildInputs where
  translations : List (String × String)
  connections : List Edge
  blocks : List Block
  subagents : List (String × Subagent)
  portfolio : List (String × Project)
  generatedAt : String
deriving Repr, DecidableEq

/-- `build()` (lines 112–184) up to the in-memory `data` value. -/
def build (inp : BuildInputs) : Data :=
  let catalogAgents := parseCatalog inp.blocks
  let ci := connectionIndex inp.connections
  let agents := catalogAgents.map
    (mergeAgent inp.translations ci inp.subagents inp.portfolio)
  let catCounts := agents.foldl (fun m a => bumpCount m a.category) []
  let categories := catCounts.map (fun p =>
    { id := p.1.toLower, name := p.1
      icon := jsOr (alookup p.1 CATEGORY_ICONS) "📦", count := p.2 })
  let deployTargets := sortStrings (dedupFirst (agents.map (·.deploy)))
  let meta : Meta :=
    { generatedAt := inp.generatedAt
      counts :=
        { agents := agents.length
          subagents := (agents.filter (fun a => a.type = "subagent")).length
          projects := (agents.filter (fun a => a.project.isSome)).length
          categories := categories.length
          deployTargets := deployTargets.length } }
  { meta := meta, categories := categories
    deployTargets := deployTargets, agents := agents }

/-! ## JSON documents

`Json` is the value domain of the emitted document: `JSON.stringify` is
fed only strings, non-negative integers (lengths/counts), booleans,
`null`, arrays and plain objects, so that is what the type holds.  Arrays
and objects are separate mutual inductives (`JArr`, `JObj`) to keep the
mutual recursion of printing and parsing structural; object fields are in
insertion order, matching `JSON.stringify`'s key enumeration. -/

mutual

inductive Json where
  | null : Json
  | bool (b : Bool) : Json
  | num (n : Nat) : Json
  | str (s : String) : Json
  | arr (a : JArr) : Json
  | obj (o : JObj) : Json

inductive JArr where
  | nil : JArr
  | cons (hd : Json) (tl : JArr) : JArr

inductive JObj where
  | nil : JObj
  | cons (k : String) (v : Json) (tl : JObj) : JObj

end

def JArr.ofList : List Json → JArr
  | [] => .nil
  | j :: tl => .cons j (JArr.ofList tl)

def JObj.ofFields : List (String × Json) → JObj
  | [] => .nil
  | (k, v) :: tl => .cons k v (JObj.ofFields tl)

/-- Lower-case hexadecimal digit, as `JSON.stringify` emits in `\u00xx`. -/
def hexDigit (n : Nat) : Char :=
  if n < 10 then Char.ofNat (48 + n) else Char.ofNat (87 + n)

/-- `JSON.stringify`'s escaping of one string character. -/
def escChar (c : Char) : List Char :=
  if c = '"' then ['\\', '"']
  else if c = '\\' then ['\\', '\\']
  else if c = '\n' then ['\\', 'n']
  else if c = '\t' then ['\\', 't']
  else if c = '\r' then ['\\', 'r']
  else if c.toNat = 8 then ['\\', 'b']
  else if c.toNat = 12 then ['\\', 'f']
  else if c.toNat < 32 then
    ['\\', 'u', '0', '0', hexDigit (c.toNat / 16), hexDigit (c.toNat % 16)]
  else [c]

def escChars : List Char → List Char
  | [] => []
  | c :: tl => escChar c ++ escChars tl

/-- A double-quoted JSON string literal. -/
def escString (s : String) : List Char :=
  '"' :: (escChars s.data ++ ['"'])

def digitChar (n : Nat) : Char := Char.ofNat (48 + n)

/-- Decimal digits of a natural number, most significant first. -/
def natDigits (n : Nat) : List Char :=
  if _h : n < 10 then [digitChar n]
  else natDigits (n / 10) ++ [digitChar (n % 10)]
termination_by n
decreasing_by exact Nat.div_lt_self (by omega) (by omega)

/-- Layout after an opening bracket: for an indenting stringify, a newline
plus the member indentation; nothing in compact mode. -/
def openSep (gap : Option (List Char)) (ind' : List Char) : List Char :=
  match gap with
  | none => []
  | some _ => '\n' :: ind'

/-- Layout before a closing bracket of a non-empty array/object. -/
def closeSep (gap : Option (List Char)) (ind : List Char) : List Char :=
  match gap with
  | none => []
  | some _ => '\n' :: ind

/-- Separator between successive items. -/
def commaSep (gap : Option (List Char)) (ind' : List Char) : List Char :=
  match gap with
  | none => [',']
  | some _ => ',' :: '\n' :: ind'

/-- Separator between a key and its value: `":"` compact, `": "` indented. -/
def colonSep (gap : Option (List Char)) : List Char :=
  match gap with
  | none => [':']
  | some _ => [':', ' ']

/-!
`printJson gap ind j` is `JSON.stringify(j, null, gap)`: `gap = none` is
the compact form used for `data.js`, `gap = some "  "` the two-space form
used for `agents.json`.  `ind` is the enclosing indentation (spaces).
-/
mutual

def printJson (gap : Option (List Char)) (ind : List Char) : Json → List Char
  | .null => "null".data
  | .bool true => "true".data
  | .bool false => "false".data
  | .num n => natDigits n
  | .str s => escString s
  | .arr .nil => ['[', ']']
  | .arr (.cons j tl) =>
    '[' :: (openSep gap (ind ++ gap.getD []) ++
      printJson gap (ind ++ gap.getD []) j ++
      printArrRest gap (ind ++ gap.getD []) tl ++
      closeSep gap ind ++ [']'])
  | .obj .nil => ['\x7b', '\x7d']
  | .obj (.cons k v tl) =>
    '\x7b' :: (openSep gap (ind ++ gap.getD []) ++
      escString k ++ colonSep gap ++
      printJson gap (ind ++ gap.getD []) v ++
      printObjRest gap (ind ++ gap.getD []) tl ++
      closeSep gap ind ++ ['\x7d'])

def printArrRest (gap : Option (List Char)) (ind' : List Char) : JArr → List Char
  | .nil => []
  | .cons j tl =>
    commaSep gap ind' ++ printJson gap ind' j ++ printArrRest gap ind' tl

def printObjRest (gap : Option (List Char)) (ind' : List Char) : JObj → List Char
  | .nil => []
  | .cons k v tl =>
    commaSep gap ind' ++ escString k ++ colonSep gap ++
      printJson gap ind' v ++ printObjRest gap ind' tl

end

/-! ### A JSON parser, to state the emitter round-trip -/

def isWsChar (c : Char) : Bool :=
  c = ' ' || c = '\n' || c = '\t' || c = '\r'

def skipWs : List Char → List Char
  | [] => []
  | c :: tl => if isWsChar c then skipWs tl else c :: tl

def isDigitChar (c : Char) : Bool :=
  decide (48 ≤ c.toNat ∧ c.toNat ≤ 57)

def hexVal (c : Char) : Option Nat :=
  if 48 ≤ c.toNat ∧ c.toNat ≤ 57 then some (c.toNat - 48)
  else if 97 ≤ c.toNat ∧ c.toNat ≤ 102 then some (c.toNat - 87)
  else if 65 ≤ c.toNat ∧ c.toNat ≤ 70 then some (c.toNat - 55)
  else none

def escDecode (e : Char) : Option Char :=
  if e = '"' then some '"'
  else if e = '\\' then some '\\'
  else if e = '/' then some '/'
  else if e = 'n' then some '\n'
  else if e = 't' then some '\t'
  else if e = 'r' then some '\r'
  else if e = 'b' then some (Char.ofNat 8)
  else if e = 'f' then some (Char.ofNat 12)
  else none

/-- Parses the body of a string literal after its opening quote; returns
the decoded characters and the input after the closing quote. -/
def parseStrBody : List Char → Option (List Char × List Char)
  | [] => none
  | c :: tl =>
    if c = '"' then some ([], tl)
    else if c = '\\' then
      match tl with
      | [] => none
      | e :: tl₂ =>
        if e = 'u' then
          match tl₂ with
          | h₁ :: h₂ :: h₃ :: h₄ :: tl₃ =>
            match hexVal h₁, hexVal h₂, hexVal h₃, hexVal h₄ with
            | some a, some b, some c', some d =>
              let n := ((a * 16 + b) * 16 + c') * 16 + d
              if n.isValidChar then
                match parseStrBody tl₃ with
                | some (s, r) => some (Char.ofNat n :: s, r)
                | none => none
              else none
            | _, _, _, _ => none
          | _ => none
        else
          match escDecode e with
          | some c' =>
            match parseStrBody tl₂ with
            | some (s, r) => some (c' :: s, r)
            | none => none
          | none => none
    else if c.toNat < 32 then none
    else
      match parseStrBody tl with
      | some (s, r) => some (c :: s, r)
      | none => none

def takeDigits : List Char → (List Char × List Char)
  | [] => ([], [])
  | c :: tl =>
    if isDigitChar c then
      let (ds, r) := takeDigits tl
      (c :: ds, r)
    else ([], c :: tl)

def digitsVal (ds : List Char) : Nat :=
  ds.foldl (fun a c => a * 10 + (c.toNat - 48)) 0

def dropLit : List Char → List Char → Option (List Char)
  | [], cs => some cs
  | _ :: _, [] => none
  | l :: ls, c :: cs => if c = l then dropLit ls cs else none

mutual

def parseV : Nat → List Char → Option (Json × List Char)
  | 0, _ => none
  | fuel + 1, cs =>
    match skipWs cs with
    | [] => none
    | c :: r =>
      if c = '"' then
        match parseStrBody r with
        | some (s, r₁) => some (.str (String.mk s), r₁)
        | none => none
      else if c = '[' then
        match skipWs r with
        | [] => none
        | c₂ :: r₂ =>
          if c₂ = ']' then some (.arr .nil, r₂)
          else
            match parseItems fuel (c₂ :: r₂) with
            | some (a, r₃) => some (.arr a, r₃)
            | none => none
      else if c = '\x7b' then
        match skipWs r with
        | [] => none
        | c₂ :: r₂ =>
          if c₂ = '\x7d' then some (.obj .nil, r₂)
          else
            match parseMembers fuel (c₂ :: r₂) with
            | some (o, r₃) => some (.obj o, r₃)
            | none => none
      else if c = 't' then
        match dropLit ['r', 'u', 'e'] r with
        | some r₁ => some (.bool true, r₁)
        | none => none
      else if c = 'f' then
        match dropLit ['a', 'l', 's', 'e'] r with
        | some r₁ => some (.bool false, r₁)
        | none => none
      else if c = 'n' then
        match dropLit ['u', 'l', 'l'] r with
        | some r₁ => some (.null, r₁)
        | none => none
      else if isDigitChar c then
        match takeDigits (c :: r) with
        | (ds, r₁) => some (.num (digitsVal ds), r₁)
      else none

def parseItems : Nat → List Char → Option (JArr × List Char)
  | 0, _ => none
  | fuel + 1, cs =>
    match parseV fuel cs with
    | none => none
    | some (j, r) =>
      match skipWs r with
      | [] => none
      | c :: r₂ =>
        if c = ',' then
          match parseItems fuel r₂ with
          | some (tl, r₃) => some (.cons j tl, r₃)
          | none => none
        else if c = ']' then some (.cons j .nil, r₂)
        else none

def parseMembers : Nat → List Char → Option (JObj × List Char)
  | 0, _ => none
  | fuel + 1, cs =>
    match skipWs cs with
    | [] => none
    | c :: r =>
      if c = '"' then
        match parseStrBody r with
        | none => none
        | some (k, r₁) =>
          match skipWs r₁ with
          | [] => none
          | c₂ :: r₂ =>
            if c₂ = ':' then
              match parseV fuel r₂ with
              | none => none
              | some (v, r₃) =>
                match skipWs r₃ with
                | [] => none
                | c₄ :: r₄ =>
                  if c₄ = ',' then
                    match parseMembers fuel r₄ with
                    | some (tl, r₅) => some (.cons (String.mk k) v tl, r₅)
                    | none => none
                  else if c₄ = '\x7d' then some (.cons (String.mk k) v .nil, r₄)
                  else none
            else none
      else none

end

/-! `jfuel`/`afuel`/`ofuel`: fuel that suffices to parse a printed value. -/
mutual

def jfuel : Json → Nat
  | .arr a => 1 + afuel a
  | .obj o => 1 + ofuel o
  | _ => 1

def afuel : JArr → Nat
  | .nil => 0
  | .cons j tl => 1 + jfuel j + afuel tl

def ofuel : JObj → Nat
  | .nil => 0
  | .cons _ v tl => 1 + jfuel v + ofuel tl

end

/-- Parse a whole document: one value, then only trailing whitespace. -/
def parseJson (cs : List Char) : Option Json :=
  match parseV (cs.length + 1) cs with
  | some (j, r) => if skipWs r = [] then some j else none
  | none => none

/-- All characters of a layout fragment are whitespace. -/
def wsList (l : List Char) : Prop :=
  ∀ c ∈ l, isWsChar c = true

/-- The indent unit, when present, is whitespace. -/
def gapOk : Option (List Char) → Prop
  | none => True
  | some g => wsList g

/-- The input does not begin with a digit (so a number token before it
cannot absorb it). -/
def notDigitStart : List Char → Prop
  | [] => True
  | c :: _ => isDigitChar c = false

/-! ### Encoding the in-memory model as a JSON document -/

def listStrJson (l : List String) : Json :=
  .arr (JArr.ofList (l.map Json.str))

def subagentJson : Option Subagent → Json
  | none => .null
  | some s => .obj (JObj.ofFields
      [("model", .str s.model), ("tools", listStrJson s.tools)])

def projectJson : Option ProjectOut → Json
  | none => .null
  | some p => .obj (JObj.ofFields
      [("title", .str p.title), ("highlights", listStrJson p.highlights),
       ("tags", listStrJson p.tags), ("inMaster", .bool p.inMaster)])

def agentJson (a : MergedAgent) : Json :=
  .obj (JObj.ofFields
    [("id", .str a.id), ("name", .str a.name), ("category", .str a.category),
     ("categoryIcon", .str a.categoryIcon), ("description", .str a.description),
     ("deploy", .str a.deploy), ("usage", listStrJson a.usage),
     ("keywords", listStrJson a.keywords), ("type", .str a.type),
     ("subagent", subagentJson a.subagent), ("project", projectJson a.project),
     ("connections", listStrJson a.connections)])

def categoryJson (c : Category) : Json :=
  .obj (JObj.ofFields
    [("id", .str c.id), ("name", .str c.name),
     ("icon", .str c.icon), ("count", .num c.count)])

def countsJson (c : Counts) : Json :=
  .obj (JObj.ofFields
    [("agents", .num c.agents), ("subagents", .num c.subagents),
     ("projects", .num c.projects), ("categories", .num c.categories),
     ("deployTargets", .num c.deployTargets)])

def metaJson (m : Meta) : Json :=
  .obj (JObj.ofFields
    [("generatedAt", .str m.generatedAt), ("counts", countsJson m.counts)])

def dataJson (d : Data) : Json :=
  .obj (JObj.ofFields
    [("meta", metaJson d.meta),
     ("categories", .arr (JArr.ofList (d.categories.map categoryJson))),
     ("deployTargets", listStrJson d.deployTargets),
     ("agents", .arr (JArr.ofList (d.agents.map agentJson)))])

/-! ### Emitter (lines 184–190) -/

/-- The `public/data/agents.json` artifact: `JSON.stringify(data, null, 2)`. -/
def agentsJsonText (inp : BuildInputs) : List Char :=
  printJson (some [' ', ' ']) [] (dataJson (build inp))

def moduleHeader : List Char :=
  "// Auto-generated by build-data.js — do not edit\nexport const DATA = ".data

/-- The `public/js/data.js` artifact: the header comment, the compact
`JSON.stringify(data)` document bound to the `DATA` constant, `;\n`. -/
def dataJsText (inp : BuildInputs) : List Char :=
  moduleHeader ++ printJson none [] (dataJson (build inp)) ++ [';', '\n']

/-- The whole of `build()` including its fallible prologue: reading and
`JSON.parse`-ing the two reference files (lines 113–114).  A missing or
malformed file makes the corresponding argument `none` (the script throws
there), so the run ends as `Except.error` naming the resource and neither
`writeFileSync` (lines 187/190) is reached: artifacts exist only inside
`.ok`. -/
def buildChecked (translationsFile : Option (List (String × String)))
    (archMapFile : Option (List Edge)) (blocks : List Block)
    (subagents : List (String × Subagent)) (portfolio : List (String × Project))
    (generatedAt : String) : Except String (List Char × List Char) :=
  match translationsFile with
  | none => .error "scripts/translations.json"
  | some translations =>
    match archMapFile with
    | none => .error "scripts/architecture-map.json"
    | some connections =>
      let inp : BuildInputs :=
        ⟨translations, connections, blocks, subagents, portfolio, generatedAt⟩
      .ok (agentsJsonText inp, dataJsText inp)

/-! ## Spec-side definitions and adjacency characterisation -/

/-- `x` and `y` are adjacent in the raw edge list, in either direction:
some edge has `x` as source and `y` among its targets, or vice versa. -/
def adjacentIn (conns : List Edge) (x y : String) : Prop :=
  ∃ e ∈ conns, ∃ t ∈ e.to_, (x = e.from_ ∧ y = t) ∨ (x = t ∧ y = e.from_)

/-- Modelled from the spec's words: a Latin-script character, used only to
*state* the spec's "non-Latin (script-specific) characters" filter — Basic
Latin through IPA extensions (≤ U+02AF) plus Latin Extended Additional. -/
def specLatinChar (c : Char) : Bool :=
  decide (c.toNat ≤ 0x02AF ∨ (0x1E00 ≤ c.toNat ∧ c.toNat ≤ 0x1EFF))

/-- Modelled from the spec's words: a keyword containing only Latin
characters. -/
def specLatinOnly (k : String) : Bool :=
  k.data.all specLatinChar

/-! ## Concrete build inputs used by witnesses and counterexamples -/

def mkBlock (id name category desc : String) : Block :=
  ⟨id, name, category, desc, none, none, none⟩

/-- Two connected agents. -/
def symInput : BuildInputs :=
  ⟨[], [⟨"alpha", ["beta"]⟩],
   [mkBlock "alpha" "A" "Production" "d1", mkBlock "beta" "B" "Production" "d2"],
   [], [], "t0"⟩

/-- One agent, one edge pointing at an id with no catalog record. -/
def ghostInput : BuildInputs :=
  ⟨[], [⟨"a", ["ghost"]⟩], [mkBlock "a" "A" "Production" "d"], [], [], "t0"⟩

/-- Two catalog blocks carrying the same id. -/
def dupInput : BuildInputs :=
  ⟨[], [], [mkBlock "x" "X1" "Production" "d1", mkBlock "x" "X2" "Content" "d2"],
   [], [], "t0"⟩

/-- First block without `keywords`/`usage` fields, second block with both:
the extractor's forward scan makes the first record pick them up. -/
def leakBlocks : List Block :=
  [⟨"a1", "A1", "Production", "d1", none, none, none⟩,
   ⟨"a2", "A2", "Production", "d2", none, some ["x"], some ["run &lt;arg&gt;"]⟩]

/-- One agent whose edge targets arrive in non-sorted order. -/
def unsortedInput : BuildInputs :=
  ⟨[], [⟨"x", ["c", "a"]⟩], [mkBlock "x" "X" "Production" "d"], [], [], "t0"⟩

/-- One agent with a Latin keyword and a Cyrillic keyword. -/
def cyrillicInput : BuildInputs :=
  ⟨[], [], [⟨"a", "A", "Production", "d", none, some ["api", "б"], none⟩],
   [], [], "t0"⟩

/-- A translation table carrying an *empty-string* entry for the agent. -/
def emptyTransInput : BuildInputs :=
  ⟨[("bot1", "")], [], [mkBlock "bot1" "Bot One" "Production" "x"], [], [], "t0"⟩

/-- The spec's §8.7 scenario: one catalog entry, no subagent, no project,
a translation entry for its id. -/
def scenarioInput : BuildInputs :=
  ⟨[("bot1", "Translated desc")], [], [mkBlock "bot1" "Bot One" "Production" "x"],
   [], [], "t0"⟩

/-- A catalog block whose `deploy` field is present but empty. -/
def emptyDeployBlock : Block :=
  ⟨"i", "N", "Production", "d", some "", none, none⟩

/-- The outputs `build symInput` produces for its two agents. -/
def symA : MergedAgent :=
  ⟨"alpha", "A", "Production", "🏭", "d1", "Local", [], [], "standalone",
   none, none, ["beta"]⟩

def symB : MergedAgent :=
  ⟨"beta", "B", "Production", "🏭", "d2", "Local", [], [], "standalone",
   none, none, ["alpha"]⟩

/-- The output `build ghostInput` produces. -/
def ghostA : MergedAgent :=
  ⟨"a", "A", "Production", "🏭", "d", "Local", [], [], "standalone",
   none, none, ["ghost"]⟩

/-- The output `build unsortedInput` produces. -/
def unsortedA : MergedAgent :=
  ⟨"x", "X", "Production", "🏭", "d", "Local", [], [], "standalone",
   none, none, ["c", "a"]⟩

/-- The output `build scenarioInput` produces. -/
def scenarioA : MergedAgent :=
  ⟨"bot1", "Bot One", "Production", "🏭", "Translated desc", "Local", [], [],
   "standalone", none, none, []⟩

/-! ## Lemmas about `alookup` and the connection index -/

theorem alookup_append_some {α : Type} {k : String} {l₁ : List (String × α)}
    (l₂ : List (String × α)) {v : α} (h : alookup k l₁ = some v) :
    alookup k (l₁ ++ l₂) = some v := by
  induction l₁ with
  | nil => simp [alookup] at h
  | cons p tl ih =>
    obtain ⟨k', v'⟩ := p
    by_cases hk : k' = k <;> simp [alookup, hk] at h ⊢
    · exact h
    · exact ih h

theorem alookup_append_none {α : Type} {k : String} {l₁ : List (String × α)}
    (l₂ : List (String × α)) (h : alookup k l₁ = none) :
    alookup k (l₁ ++ l₂) = alookup k l₂ := by
  induction l₁ with
  | nil => rfl
  | cons p tl ih =>
    obtain ⟨k', v'⟩ := p
    by_cases hk : k' = k <;> simp [alookup, hk] at h ⊢
    exact ih h

theorem alookup_cons {α : Type} (k' x : String) (v : α) (tl : List (String × α)) :
    alookup x ((k', v) :: tl) = if k' = x then some v else alookup x tl := rfl

theorem alookup_ciAdd_self (ci : ConnIndex) (k v : String) :
    alookup k (ciAdd ci k v) =
      (alookup k ci).map (fun vs => if v ∈ vs then vs else vs ++ [v]) := by
  induction ci with
  | nil => rfl
  | cons p tl ih =>
    obtain ⟨k', vs⟩ := p
    simp only [ciAdd, List.map_cons] at ih ⊢
    by_cases hk' : k' = k
    · subst hk'
      rw [alookup_cons, alookup_cons, if_pos rfl, if_pos rfl]
      simp
    · rw [alookup_cons, alookup_cons, if_neg hk', if_neg hk', ih]

theorem alookup_ciAdd_other {x k : String} (hx : x ≠ k) (ci : ConnIndex) (v : String) :
    alookup x (ciAdd ci k v) = alookup x ci := by
  induction ci with
  | nil => rfl
  | cons p tl ih =>
    obtain ⟨k', vs⟩ := p
    simp only [ciAdd, List.map_cons] at ih ⊢
    by_cases hk'x : k' = x
    · subst hk'x
      rw [alookup_cons, alookup_cons, if_pos rfl, if_pos rfl,
        if_neg (fun h => hx h)]
    · rw [alookup_cons, alookup_cons, if_neg hk'x, if_neg hk'x, ih]

theorem ciNeighbors_ciEnsure (ci : ConnIndex) (k x : String) :
    ciNeighbors (ciEnsure ci k) x = ciNeighbors ci x := by
  unfold ciEnsure ciNeighbors
  by_cases hp : (alookup k ci).isSome
  · rw [if_pos hp]
  · rw [if_neg hp]
    cases hx : alookup x ci with
    | some vs => simp [alookup_append_some _ hx, hx]
    | none =>
      rw [alookup_append_none _ hx]
      by_cases hkx : k = x <;> simp [alookup, hkx, hx]

theorem alookup_ciEnsure_self_isSome (ci : ConnIndex) (k : String) :
    (alookup k (ciEnsure ci k)).isSome := by
  unfold ciEnsure
  by_cases hp : (alookup k ci).isSome
  · rw [if_pos hp]; exact hp
  · rw [if_neg hp, alookup_append_none _ (Option.not_isSome_iff_eq_none.mp hp)]
    simp [alookup]

theorem isSome_alookup_ciAdd (ci : ConnIndex) (k v x : String) :
    (alookup x (ciAdd ci k v)).isSome = (alookup x ci).isSome := by
  by_cases hx : x = k
  · subst hx
    rw [alookup_ciAdd_self]
    cases alookup x ci <;> rfl
  · rw [alookup_ciAdd_other hx]

theorem isSome_alookup_ciEnsure_mono {ci : ConnIndex} {x : String} (k : String)
    (h : (alookup x ci).isSome) : (alookup x (ciEnsure ci k)).isSome := by
  unfold ciEnsure
  by_cases hp : (alookup k ci).isSome
  · rw [if_pos hp]; exact h
  · obtain ⟨v, hv⟩ := Option.isSome_iff_exists.mp h
    rw [if_neg hp, alookup_append_some _ hv]
    rfl

theorem mem_ciNeighbors_ciAdd (ci : ConnIndex) (k v x y : String) :
    y ∈ ciNeighbors (ciAdd ci k v) x ↔
      y ∈ ciNeighbors ci x ∨ (x = k ∧ y = v ∧ (alookup k ci).isSome) := by
  unfold ciNeighbors
  by_cases hx : x = k
  · subst hx
    rw [alookup_ciAdd_self]
    cases h : alookup x ci with
    | none => simp
    | some vs =>
      by_cases hv : v ∈ vs
      · simp only [Option.map_some', hv, if_true, Option.getD_some,
          Option.isSome_some, and_true, true_and]
        exact ⟨fun hy => Or.inl hy, fun hy => hy.elim id (fun he => he ▸ hv)⟩
      · simp [hv, List.mem_append]
  · rw [alookup_ciAdd_other hx]
    simp [hx]

theorem isSome_ciStep {ci : ConnIndex} {x : String} (f t : String)
    (h : (alookup x ci).isSome) : (alookup x (ciStep f ci t)).isSome := by
  unfold ciStep
  rw [isSome_alookup_ciAdd]
  exact isSome_alookup_ciEnsure_mono t (by rw [isSome_alookup_ciAdd]; exact h)

theorem mem_ciNeighbors_ciStep {ci : ConnIndex} {f : String} (t x y : String)
    (hf : (alookup f ci).isSome) :
    y ∈ ciNeighbors (ciStep f ci t) x ↔
      y ∈ ciNeighbors ci x ∨ (x = f ∧ y = t) ∨ (x = t ∧ y = f) := by
  unfold ciStep
  rw [mem_ciNeighbors_ciAdd, ciNeighbors_ciEnsure, mem_ciNeighbors_ciAdd]
  have h1 : (alookup t (ciEnsure (ciAdd ci f t) t)).isSome :=
    alookup_ciEnsure_self_isSome _ _
  simp only [h1, hf, and_true]
  tauto

theorem mem_innerFold (f x y : String) (ts : List String) :
    ∀ ci : ConnIndex, (alookup f ci).isSome →
      (y ∈ ciNeighbors (ts.foldl (ciStep f) ci) x ↔
        y ∈ ciNeighbors ci x ∨ ∃ t ∈ ts, (x = f ∧ y = t) ∨ (x = t ∧ y = f)) := by
  induction ts with
  | nil => intro ci _; simp
  | cons t ts ih =>
    intro ci hf
    rw [List.foldl_cons, ih _ (isSome_ciStep f t hf), mem_ciNeighbors_ciStep t x y hf]
    simp only [List.exists_mem_cons_iff]
    exact or_assoc

theorem mem_outerFold (x y : String) (conns : List Edge) :
    ∀ ci : ConnIndex,
      y ∈ ciNeighbors
        (conns.foldl (fun ci e => e.to_.foldl (ciStep e.from_) (ciEnsure ci e.from_)) ci) x ↔
      y ∈ ciNeighbors ci x ∨ adjacentIn conns x y := by
  induction conns with
  | nil => intro ci; simp [adjacentIn]
  | cons e es ih =>
    intro ci
    rw [List.foldl_cons, ih,
      mem_innerFold e.from_ x y e.to_ _ (alookup_ciEnsure_self_isSome _ _),
      ciNeighbors_ciEnsure]
    unfold adjacentIn
    simp only [List.exists_mem_cons_iff]
    exact or_assoc

theorem mem_connectionIndex {conns : List Edge} {x y : String} :
    y ∈ ciNeighbors (connectionIndex conns) x ↔ adjacentIn conns x y := by
  unfold connectionIndex
  rw [mem_outerFold]
  simp [ciNeighbors, alookup]

theorem adjacentIn_symm {conns : List Edge} {x y : String}
    (h : adjacentIn conns x y) : adjacentIn conns y x := by
  obtain ⟨e, he, t, ht, h | h⟩ := h
  · exact ⟨e, he, t, ht, Or.inr ⟨h.2, h.1⟩⟩
  · exact ⟨e, he, t, ht, Or.inl ⟨h.2, h.1⟩⟩

/-! ## Duplicate-freeness of the adjacency sets -/

theorem nodup_ciAdd {ci : ConnIndex} (k v : String)
    (h : ∀ x vs, alookup x ci = some vs → vs.Nodup) :
    ∀ x vs, alookup x (ciAdd ci k v) = some vs → vs.Nodup := by
  intro x vs hvs
  by_cases hx : x = k
  · subst hx
    rw [alookup_ciAdd_self] at hvs
    obtain ⟨vs₀, hv₀, rfl⟩ := Option.map_eq_some'.mp hvs
    have hn := h x vs₀ hv₀
    by_cases hv : v ∈ vs₀
    · rw [if_pos hv]; exact hn
    · rw [if_neg hv, List.nodup_append]
      refine ⟨hn, List.nodup_singleton v, ?_⟩
      intro a ha hav
      rw [List.mem_singleton] at hav
      subst hav
      exact hv ha
  · rw [alookup_ciAdd_other hx] at hvs
    exact h x vs hvs

theorem nodup_ciEnsure {ci : ConnIndex} (k : String)
    (h : ∀ x vs, alookup x ci = some vs → vs.Nodup) :
    ∀ x vs, alookup x (ciEnsure ci k) = some vs → vs.Nodup := by
  intro x vs hvs
  unfold ciEnsure at hvs
  split at hvs
  · exact h x vs hvs
  · cases hx : alookup x ci with
    | some vs' =>
      rw [alookup_append_some _ hx] at hvs
      exact (Option.some_inj.mp hvs) ▸ h x vs' hx
    | none =>
      rw [alookup_append_none _ hx] at hvs
      by_cases hkx : k = x <;> simp [alookup, hkx] at hvs
      exact hvs ▸ List.nodup_nil

theorem nodup_ciStep {ci : ConnIndex} (f t : String)
    (h : ∀ x vs, alookup x ci = some vs → vs.Nodup) :
    ∀ x vs, alookup x (ciStep f ci t) = some vs → vs.Nodup :=
  nodup_ciAdd t f (nodup_ciEnsure t (nodup_ciAdd f t h))

theorem nodup_innerFold (f : String) (ts : List String) :
    ∀ ci : ConnIndex, (∀ x vs, alookup x ci = some vs → vs.Nodup) →
      ∀ x vs, alookup x (ts.foldl (ciStep f) ci) = some vs → vs.Nodup := by
  induction ts with
  | nil => intro ci h; exact h
  | cons t ts ih => intro ci h; exact ih _ (nodup_ciStep f t h)

theorem nodup_connectionIndex (conns : List Edge) :
    ∀ x vs, alookup x (connectionIndex conns) = some vs → vs.Nodup := by
  unfold connectionIndex
  have main : ∀ (es : List Edge) (ci : ConnIndex),
      (∀ x vs, alookup x ci = some vs → vs.Nodup) →
      ∀ x vs, alookup x
        (es.foldl (fun ci e => e.to_.foldl (ciStep e.from_) (ciEnsure ci e.from_)) ci)
          = some vs → vs.Nodup := by
    intro es
    induction es with
    | nil => intro ci h; exact h
    | cons e es ih =>
      intro ci h
      exact ih _ (nodup_innerFold e.from_ e.to_ _ (nodup_ciEnsure e.from_ h))
  exact main conns [] (by intro x vs h; simp [alookup] at h)

theorem nodup_ciNeighbors (conns : List Edge) (x : String) :
    (ciNeighbors (connectionIndex conns) x).Nodup := by
  unfold ciNeighbors
  cases h : alookup x (connectionIndex conns) with
  | none => exact List.nodup_nil
  | some vs => exact nodup_connectionIndex conns x vs h

/-! ## Lemmas about the merge step -/

theorem mergeAgent_id (t : List (String × String)) (ci : ConnIndex)
    (s : List (String × Subagent)) (p : List (String × Project)) (a : AgentRecord) :
    (mergeAgent t ci s p a).id = a.id := rfl

theorem mergeAgent_connections (t : List (String × String)) (ci : ConnIndex)
    (s : List (String × Subagent)) (p : List (String × Project)) (a : AgentRecord) :
    (mergeAgent t ci s p a).connections = ciNeighbors ci a.id := rfl

theorem mergeAgent_description (t : List (String × String)) (ci : ConnIndex)
    (s : List (String × Subagent)) (p : List (String × Project)) (a : AgentRecord) :
    (mergeAgent t ci s p a).description = jsOr (alookup a.id t) a.desc := rfl

theorem mergeAgent_deploy (t : List (String × String)) (ci : ConnIndex)
    (s : List (String × Subagent)) (p : List (String × Project)) (a : AgentRecord) :
    (mergeAgent t ci s p a).deploy = jsOr (alookup a.deploy DEPLOY_NORMALIZE) a.deploy := rfl

theorem build_agents (inp : BuildInputs) :
    (build inp).agents = (parseCatalog inp.blocks).map
      (mergeAgent inp.translations (connectionIndex inp.connections)
        inp.subagents inp.portfolio) := rfl

theorem mkAgent_id (b : Block) (scope : List Block) : (mkAgent b scope).id = b.id := rfl

theorem parseCatalog_map_id (bs : List Block) :
    (parseCatalog bs).map (·.id) = bs.map (·.id) := by
  induction bs with
  | nil => rfl
  | cons b tl ih => simp [parseCatalog, mkAgent_id, ih]

theorem build_map_id (inp : BuildInputs) :
    (build inp).agents.map (·.id) = inp.blocks.map (·.id) := by
  have h1 : (build inp).agents.map (·.id) = (parseCatalog inp.blocks).map (·.id) := by
    rw [build_agents, List.map_map]
    rfl
  exact h1.trans (parseCatalog_map_id _)

/-! ## Claims -/

/-- C1: Connection symmetry — for every pair of agents `a`, `b` in the
emitted agents list, if `b.id` appears in `a.connections` then `a.id`
appears in `b.connections`; the adjacency index adds each edge in both
directions, creating empty sets for previously-unseen node ids. -/
theorem connection_symmetry (inp : BuildInputs) (a b : MergedAgent)
    (ha : a ∈ (build inp).agents) (hb : b ∈ (build inp).agents)
    (hba : b.id ∈ a.connections) : a.id ∈ b.connections := by
  rw [build_agents] at ha hb
  obtain ⟨ra, _, rfl⟩ := List.mem_map.mp ha
  obtain ⟨rb, _, rfl⟩ := List.mem_map.mp hb
  rw [mergeAgent_connections, mergeAgent_id] at hba ⊢
  exact mem_connectionIndex.mpr (adjacentIn_symm (mem_connectionIndex.mp hba))

/-- Witness for C1 at a concrete build: two agents joined by one edge. -/
theorem connection_symmetry_witness :
    (symA ∈ (build symInput).agents ∧ symB ∈ (build symInput).agents ∧
      symB.id ∈ symA.connections) ∧ symA.id ∈ symB.connections :=
  ⟨⟨by decide, by decide, by decide⟩,
    connection_symmetry symInput symA symB (by decide) (by decide) (by decide)⟩

/-- C2, counterexample: the build retains an edge target with no matching
catalog record — the only agent `"a"` has `connections = ["ghost"]` while
no emitted agent has id `"ghost"`, so connections can name an id absent
from the merged agent list. -/
theorem dangling_connections_counterexample :
    (build ghostInput).agents.map (·.connections) = [["ghost"]] ∧
    (build ghostInput).agents.map (·.id) = ["a"] ∧ ("ghost" : String) ≠ "a" :=
  ⟨by decide, by decide, by decide⟩

/-- C2 (amended): an agent's `connections` are exactly the ids adjacent to
its id in the edge list, in either direction — including ids with no
matching `AgentRecord`, which are retained, not pruned. -/
theorem dangling_connections_amended (inp : BuildInputs) (a : MergedAgent)
    (ha : a ∈ (build inp).agents) (c : String) :
    c ∈ a.connections ↔ adjacentIn inp.connections a.id c := by
  rw [build_agents] at ha
  obtain ⟨r, _, rfl⟩ := List.mem_map.mp ha
  rw [mergeAgent_connections, mergeAgent_id]
  exact mem_connectionIndex

/-- Witness for the amended C2 at a concrete build. -/
theorem dangling_connections_amended_witness :
    (ghostA ∈ (build ghostInput).agents) ∧
    ("ghost" ∈ ghostA.connections ↔ adjacentIn ghostInput.connections ghostA.id "ghost") :=
  ⟨by decide, dangling_connections_amended ghostInput ghostA (by decide) "ghost"⟩

/-- C3, counterexample: two catalog blocks with the same id `"x"` produce
*two* `MergedAgent`s with that id — no record is dropped, so neither
uniqueness nor "last-parsed wins" holds in the output. -/
theorem duplicate_id_counterexample :
    (build dupInput).agents.map (·.id) = ["x", "x"] ∧
    ((build dupInput).agents.filter (fun m => m.id == "x")).length = 2 :=
  ⟨by decide, by decide⟩

/-- C3 (amended): each `MergedAgent.id` equals its source record's id,
positionally, one output agent per catalog block in scan order — hence
output ids are unique exactly when the catalog's block ids are, and
duplicated source ids yield duplicated output agents. -/
theorem output_ids_amended (inp : BuildInputs) :
    (build inp).agents.map (·.id) = inp.blocks.map (·.id) ∧
    ((inp.blocks.map (·.id)).Nodup → ((build inp).agents.map (·.id)).Nodup) :=
  ⟨build_map_id inp, fun hn => (build_map_id inp) ▸ hn⟩

/-- Witness for the amended C3 at a concrete build. -/
theorem output_ids_amended_witness :
    ((build symInput).agents.map (·.id) = symInput.blocks.map (·.id)) ∧
    ((build symInput).agents.map (·.id)).Nodup :=
  ⟨(output_ids_amended symInput).1, (output_ids_amended symInput).2 (by decide)⟩

/-- C4: evaluation at the failing input — the first block has *no*
`keywords` or `usage` field (`kwRaw = usageRaw = none`), yet its extracted
record receives the *second* block's keywords and usage, because the
follow-up searches run on the whole remaining file text
(`src.substring(m.index)`) instead of the block alone. -/
theorem extractor_forward_scan_leak :
    leakBlocks.map (·.kwRaw) = [none, some ["x"]] ∧
    leakBlocks.map (·.usageRaw) = [none, some ["run &lt;arg&gt;"]] ∧
    (parseCatalog leakBlocks).map (·.keywords) = [["x"], ["x"]] ∧
    (parseCatalog leakBlocks).map (·.usage) = [["run <arg>"], ["run <arg>"]] :=
  ⟨by decide, by decide, by decide, by decide⟩

/-- C5, counterexample: with one edge `x → [c, a]` the emitted
`connections` of agent `x` is `["c", "a"]` — insertion order, not sorted
(the script spreads the `Set` without sorting). -/
theorem connections_sorted_counterexample :
    (build unsortedInput).agents.map (·.connections) = [["c", "a"]] ∧
    ¬ List.Pairwise (fun s t : String => strLe s t = true) ["c", "a"] :=
  ⟨by decide, by decide⟩

/-- C5 (amended): exactly one `MergedAgent` per `AgentRecord`, in record
order, and each agent's `connections` sequence is duplicate-free (it is a
deterministic function of the edge list: first-encounter insertion order),
but it is not sorted. -/
theorem connections_order_amended (inp : BuildInputs) :
    (build inp).agents.length = (parseCatalog inp.blocks).length ∧
    ∀ a ∈ (build inp).agents, a.connections.Nodup := by
  constructor
  · rw [build_agents]
    exact List.length_map _ _
  · intro a ha
    rw [build_agents] at ha
    obtain ⟨r, _, rfl⟩ := List.mem_map.mp ha
    rw [mergeAgent_connections]
    exact nodup_ciNeighbors _ _

/-- Witness for the amended C5 at a concrete build. -/
theorem connections_order_amended_witness :
    (unsortedA ∈ (build unsortedInput).agents) ∧ unsortedA.connections.Nodup :=
  ⟨by decide, (connections_order_amended unsortedInput).2 unsortedA (by decide)⟩

/-- C6, counterexample: the filter only drops keywords containing a
character in U+3131–U+D79D; the Cyrillic keyword `"б"` is non-Latin yet
*retained*, refuting "every keyword containing any non-Latin character is
excluded". -/
theorem keyword_filter_counterexample :
    (build cyrillicInput).agents.map (·.keywords) = [["api", "б"]] ∧
    specLatinOnly "б" = false :=
  ⟨by decide, by decide⟩

/-- C6 (amended): keywords are the source record's keywords filtered to
drop exactly those containing a character in U+3131–U+D79D; any keyword
made only of Latin characters passes the filter, and
`["api", "자동화"]` filters to `["api"]`. -/
theorem keyword_filter_amended (inp : BuildInputs) :
    ((build inp).agents.map (·.keywords) =
      (parseCatalog inp.blocks).map
        (fun r => r.keywords.filter (fun k => !hasFilteredChar k))) ∧
    (∀ k : String, specLatinOnly k = true → hasFilteredChar k = false) ∧
    (["api", "자동화"].filter (fun k => !hasFilteredChar k) = ["api"]) := by
  refine ⟨?_, ?_, by decide⟩
  · rw [build_agents, List.map_map]
    rfl
  · intro k hk
    simp only [specLatinOnly, List.all_eq_true, specLatinChar, decide_eq_true_eq] at hk
    simp only [hasFilteredChar, List.any_eq_false, inFilteredRange, decide_eq_true_eq]
    intro c hc
    have := hk c hc
    omega

/-- Witness for the amended C6: an all-Latin keyword passes the filter. -/
theorem keyword_filter_amended_witness :
    specLatinOnly "api" = true ∧ hasFilteredChar "api" = false :=
  ⟨by decide, (keyword_filter_amended symInput).2.1 "api" (by decide)⟩

/-- C7, counterexample: the translation table *contains* an entry for
`"bot1"` — the empty string — yet the output description is the catalog's
raw `desc` `"x"`, because `translations[id] || desc` treats the empty
string as falsy; so "if the table contains an entry then the description
equals that entry" fails. -/
theorem description_override_counterexample :
    alookup "bot1" emptyTransInput.translations = some "" ∧
    (build emptyTransInput).agents.map (·.description) = ["x"] ∧
    ("x" : String) ≠ "" :=
  ⟨by decide, by decide, by decide⟩

/-- C7 (amended): a *non-empty* translation entry for the record's id
overrides the description; with no entry, or an empty-string entry, the
description is the catalog's raw `desc`.  The spec's §8.7 scenario holds
as stated. -/
theorem description_override_amended :
    (∀ (inp : BuildInputs) (a : MergedAgent), a ∈ (build inp).agents →
      ∃ r ∈ parseCatalog inp.blocks, a.id = r.id ∧
        (∀ t, alookup r.id inp.translations = some t → t ≠ "" → a.description = t) ∧
        ((alookup r.id inp.translations = none ∨
          alookup r.id inp.translations = some "") → a.description = r.desc)) ∧
    (build scenarioInput).agents.map
      (fun m => (m.description, m.type, m.project, m.deploy)) =
      [("Translated desc", "standalone", none, "Local")] := by
  constructor
  · intro inp a ha
    rw [build_agents] at ha
    obtain ⟨r, hr, rfl⟩ := List.mem_map.mp ha
    refine ⟨r, hr, mergeAgent_id _ _ _ _ _, ?_, ?_⟩
    · intro t ht hne
      rw [mergeAgent_description, ht]
      simp [jsOr, hne]
    · rintro (h | h) <;> rw [mergeAgent_description, h] <;> simp [jsOr]
  · decide

/-- Witness for the amended C7 at the spec's scenario build. -/
theorem description_override_amended_witness :
    (scenarioA ∈ (build scenarioInput).agents) ∧
    (∃ r ∈ parseCatalog scenarioInput.blocks, scenarioA.id = r.id ∧
      (∀ t, alookup r.id scenarioInput.translations = some t → t ≠ "" →
        scenarioA.description = t) ∧
      ((alookup r.id scenarioInput.translations = none ∨
        alookup r.id scenarioInput.translations = some "") →
        scenarioA.description = r.desc)) :=
  ⟨by decide, description_override_amended.1 scenarioInput scenarioA (by decide)⟩

/-- C8: if either reference file is missing or malformed, the build ends
as a hard `Except.error` naming the resource; artifacts exist only in the
`.ok` branch, so no output is produced. -/
theorem fail_fast_no_output (translationsFile : Option (List (String × String)))
    (archMapFile : Option (List Edge)) (blocks : List Block)
    (subagents : List (String × Subagent)) (portfolio : List (String × Project))
    (generatedAt : String)
    (h : translationsFile = none ∨ archMapFile = none) :
    ∃ msg, buildChecked translationsFile archMapFile blocks subagents portfolio
      generatedAt = .error msg := by
  rcases h with rfl | rfl
  · exact ⟨"scripts/translations.json", rfl⟩
  · cases translationsFile with
    | none => exact ⟨"scripts/translations.json", rfl⟩
    | some t => exact ⟨"scripts/architecture-map.json", rfl⟩

/-- Witness for C8: a run with the translation table missing errors out. -/
theorem fail_fast_no_output_witness :
    ∃ msg, buildChecked none (some []) [] [] [] "t0" = .error msg :=
  fail_fast_no_output none (some []) [] [] [] "t0" (Or.inl rfl)

/-- C10: a catalog block whose `deploy` field is present but empty yields
the same record as one with the field absent (`deploy || 'Local'` treats
`''` as falsy), its extracted deploy is `"Local"`, and the merged agent's
deploy is `"Local"` (the normalization table maps `"Local"` to itself). -/
theorem empty_deploy_default (b : Block) (scope : List Block)
    (h : b.deploy = some "") :
    mkAgent b scope = mkAgent { b with deploy := none } scope ∧
    (mkAgent b scope).deploy = "Local" ∧
    ∀ tr ci subs port, (mergeAgent tr ci subs port (mkAgent b scope)).deploy = "Local" := by
  have hd : (mkAgent b scope).deploy = "Local" := by
    simp [mkAgent, h, jsOr]
  refine ⟨?_, hd, ?_⟩
  · simp [mkAgent, h, jsOr]
  · intro tr ci subs port
    rw [mergeAgent_deploy, hd]
    decide

/-- Witness for C10 at a concrete block with `deploy: ''`. -/
theorem empty_deploy_default_witness :
    emptyDeployBlock.deploy = some "" ∧
    (mkAgent emptyDeployBlock [] = mkAgent { emptyDeployBlock with deploy := none } [] ∧
     (mkAgent emptyDeployBlock []).deploy = "Local" ∧
     ∀ tr ci subs port,
       (mergeAgent tr ci subs port (mkAgent emptyDeployBlock [])).deploy = "Local") :=
  ⟨rfl, empty_deploy_default emptyDeployBlock [] rfl⟩

/-! ## Round-trip of the JSON emitter: auxiliary lemmas -/

theorem not_digit_of_ws {c : Char} (h : isWsChar c = true) : isDigitChar c = false := by
  simp only [isWsChar, Bool.or_eq_true, decide_eq_true_eq] at h
  rcases h with ((rfl | rfl) | rfl) | rfl <;> decide

theorem not_ws_of_digit {c : Char} (h : isDigitChar c = true) : isWsChar c = false := by
  cases hw : isWsChar c with
  | false => rfl
  | true => rw [not_digit_of_ws hw] at h; cases h

theorem digit_not_special {c : Char} (h : isDigitChar c = true) :
    c ≠ '"' ∧ c ≠ '[' ∧ c ≠ '\x7b' ∧ c ≠ 't' ∧ c ≠ 'f' ∧ c ≠ 'n' ∧
      c ≠ ']' ∧ c ≠ '\x7d' ∧ c ≠ ',' := by
  refine ⟨?_, ?_, ?_, ?_, ?_, ?_, ?_, ?_, ?_⟩ <;> rintro rfl <;> revert h <;> decide

theorem skipWs_cons_not {c : Char} {cs : List Char} (h : isWsChar c = false) :
    skipWs (c :: cs) = c :: cs := by
  simp [skipWs, h]

theorem skipWs_append {l : List Char} (hl : wsList l) (cs : List Char) :
    skipWs (l ++ cs) = skipWs cs := by
  induction l with
  | nil => rfl
  | cons c l ih =>
    have hc : isWsChar c = true := hl c (List.mem_cons_self _ _)
    rw [List.cons_append]
    show skipWs (c :: (l ++ cs)) = skipWs cs
    rw [skipWs, if_pos hc]
    exact ih (fun d hd => hl d (List.mem_cons_of_mem _ hd))

theorem notDigitStart_of_skipWs {cs : List Char} {d : Char} {r : List Char}
    (h : skipWs cs = d :: r) (hd : isDigitChar d = false) : notDigitStart cs := by
  cases cs with
  | nil => trivial
  | cons c cs' =>
    show isDigitChar c = false
    by_cases hw : isWsChar c
    · exact not_digit_of_ws hw
    · rw [skipWs, if_neg hw] at h
      injection h with h1 _
      rw [h1]
      exact hd

theorem parseV_ws (fuel : Nat) {ws : List Char} (h : wsList ws) (cs : List Char) :
    parseV fuel (ws ++ cs) = parseV fuel cs := by
  cases fuel with
  | zero => rfl
  | succ fuel => simp only [parseV, skipWs_append h]

theorem parseItems_ws (fuel : Nat) {ws : List Char} (h : wsList ws) (cs : List Char) :
    parseItems fuel (ws ++ cs) = parseItems fuel cs := by
  cases fuel with
  | zero => rfl
  | succ fuel => simp only [parseItems, parseV_ws fuel h]

theorem parseMembers_ws (fuel : Nat) {ws : List Char} (h : wsList ws) (cs : List Char) :
    parseMembers fuel (ws ++ cs) = parseMembers fuel cs := by
  cases fuel with
  | zero => rfl
  | succ fuel => simp only [parseMembers, skipWs_append h]

theorem string_mk_data (s : String) : String.mk s.data = s := rfl

theorem digitChar_toNat {n : Nat} (h : n < 10) : (digitChar n).toNat = 48 + n := by
  interval_cases n <;> decide

theorem isDigitChar_digitChar {n : Nat} (h : n < 10) : isDigitChar (digitChar n) = true := by
  interval_cases n <;> decide

theorem natDigits_ne_nil (n : Nat) : natDigits n ≠ [] := by
  unfold natDigits
  split
  · simp
  · simp

theorem natDigits_all_digits (n : Nat) : ∀ c ∈ natDigits n, isDigitChar c = true := by
  induction n using Nat.strong_induction_on with
  | _ n ih =>
    unfold natDigits
    split
    · intro c hc
      rw [List.mem_singleton] at hc
      subst hc
      exact isDigitChar_digitChar (by omega)
    · intro c hc
      rw [List.mem_append] at hc
      rcases hc with hc | hc
      · exact ih (n / 10) (Nat.div_lt_self (by omega) (by omega)) c hc
      · rw [List.mem_singleton] at hc
        subst hc
        exact isDigitChar_digitChar (Nat.mod_lt _ (by omega))

theorem digitsVal_append (ds : List Char) (d : Char) :
    digitsVal (ds ++ [d]) = digitsVal ds * 10 + (d.toNat - 48) := by
  simp [digitsVal, List.foldl_append]

theorem digitsVal_natDigits (n : Nat) : digitsVal (natDigits n) = n := by
  induction n using Nat.strong_induction_on with
  | _ n ih =>
    unfold natDigits
    split
    · rename_i h
      show digitsVal [digitChar n] = n
      simp [digitsVal, digitChar_toNat h]
    · rename_i h
      rw [digitsVal_append, ih (n / 10) (Nat.div_lt_self (by omega) (by omega)),
        digitChar_toNat (Nat.mod_lt _ (by omega))]
      omega

theorem takeDigits_append {ds r : List Char} (hds : ∀ c ∈ ds, isDigitChar c = true)
    (hr : notDigitStart r) : takeDigits (ds ++ r) = (ds, r) := by
  induction ds with
  | nil =>
    cases r with
    | nil => rfl
    | cons c r' =>
      have : isDigitChar c = false := hr
      simp [takeDigits, this]
  | cons d ds ih =>
    have hd : isDigitChar d = true := hds d (List.mem_cons_self _ _)
    have ih' := ih (fun c hc => hds c (List.mem_cons_of_mem _ hc))
    simp [takeDigits, hd, ih']

theorem hexVal_hexDigit {d : Nat} (h : d < 16) : hexVal (hexDigit d) = some d := by
  interval_cases d <;> decide

theorem parseStrBody_esc (l : List Char) : ∀ r : List Char,
    parseStrBody (escChars l ++ '"' :: r) = some (l, r) := by
  induction l with
  | nil =>
    intro r
    show parseStrBody ('"' :: r) = some ([], r)
    unfold parseStrBody
    simp
  | cons c l ih =>
    intro r
    show parseStrBody ((escChar c ++ escChars l) ++ '"' :: r) = _
    rw [List.append_assoc]
    by_cases h1 : c = '"'
    · subst h1
      show parseStrBody ('\\' :: '"' :: (escChars l ++ '"' :: r)) = _
      unfold parseStrBody
      simp [escDecode, ih]
    · by_cases h2 : c = '\\'
      · subst h2
        show parseStrBody ('\\' :: '\\' :: (escChars l ++ '"' :: r)) = _
        unfold parseStrBody
        simp [escDecode, ih]
      · by_cases h3 : c = '\n'
        · subst h3
          show parseStrBody ('\\' :: 'n' :: (escChars l ++ '"' :: r)) = _
          unfold parseStrBody
          simp [escDecode, ih]
        · by_cases h4 : c = '\t'
          · subst h4
            show parseStrBody ('\\' :: 't' :: (escChars l ++ '"' :: r)) = _
            unfold parseStrBody
            simp [escDecode, ih]
          · by_cases h5 : c = '\r'
            · subst h5
              show parseStrBody ('\\' :: 'r' :: (escChars l ++ '"' :: r)) = _
              unfold parseStrBody
              simp [escDecode, ih]
            · by_cases h6 : c.toNat = 8
              · have hc : c = Char.ofNat 8 := by rw [← h6, Char.ofNat_toNat]
                have he : escChar c = ['\\', 'b'] := by
                  rw [escChar, if_neg h1, if_neg h2, if_neg h3, if_neg h4,
                    if_neg h5, if_pos h6]
                rw [he, List.cons_append, List.cons_append]
                unfold parseStrBody
                simp [escDecode, ih]
                exact hc.symm
              · by_cases h7 : c.toNat = 12
                · have hc : c = Char.ofNat 12 := by rw [← h7, Char.ofNat_toNat]
                  have he : escChar c = ['\\', 'f'] := by
                    rw [escChar, if_neg h1, if_neg h2, if_neg h3, if_neg h4,
                      if_neg h5, if_neg h6, if_pos h7]
                  rw [he, List.cons_append, List.cons_append]
                  unfold parseStrBody
                  simp [escDecode, ih]
                  exact hc.symm
                · by_cases h8 : c.toNat < 32
                  · have he : escChar c =
                        ['\\', 'u', '0', '0', hexDigit (c.toNat / 16), hexDigit (c.toNat % 16)] := by
                      rw [escChar, if_neg h1, if_neg h2, if_neg h3, if_neg h4,
                        if_neg h5, if_neg h6, if_neg h7, if_pos h8]
                    rw [he, List.cons_append, List.cons_append, List.cons_append,
                      List.cons_append, List.cons_append, List.cons_append]
                    have hd1 : hexVal (hexDigit (c.toNat / 16)) = some (c.toNat / 16) :=
                      hexVal_hexDigit (by omega)
                    have hd2 : hexVal (hexDigit (c.toNat % 16)) = some (c.toNat % 16) :=
                      hexVal_hexDigit (by omega)
                    have hn : ((0 * 16 + 0) * 16 + c.toNat / 16) * 16 + c.toNat % 16 = c.toNat := by
                      omega
                    have hvalid : (c.toNat).isValidChar := Or.inl (by omega)
                    have h0 : hexVal '0' = some 0 := by decide
                    unfold parseStrBody
                    simp [h0, hd1, hd2, hn, hvalid, Char.ofNat_toNat, ih]
                    have hh : c.toNat / 16 * 16 + c.toNat % 16 = c.toNat := by omega
                    rw [hh]
                    exact ⟨hvalid, Char.ofNat_toNat c⟩
                  · have he : escChar c = [c] := by
                      rw [escChar, if_neg h1, if_neg h2, if_neg h3, if_neg h4,
                        if_neg h5, if_neg h6, if_neg h7, if_neg h8]
                    rw [he, List.singleton_append]
                    unfold parseStrBody
                    rw [if_neg h1, if_neg h2, if_neg h8, ih]

theorem wsList_nil : wsList [] := by intro c hc; cases hc

theorem wsList_indGap {gap : Option (List Char)} {ind : List Char}
    (hgap : gapOk gap) (hind : wsList ind) : wsList (ind ++ gap.getD []) := by
  intro c hc
  rw [List.mem_append] at hc
  rcases hc with hc | hc
  · exact hind c hc
  · cases gap with
    | none => cases hc
    | some g => exact hgap c hc

theorem openSep_ws {gap : Option (List Char)} {ind' : List Char}
    (hind' : wsList ind') : wsList (openSep gap ind') := by
  cases gap with
  | none => exact wsList_nil
  | some g =>
    intro c hc
    rcases List.mem_cons.mp hc with rfl | hc
    · decide
    · exact hind' c hc

theorem closeSep_ws {gap : Option (List Char)} {ind : List Char}
    (hind : wsList ind) : wsList (closeSep gap ind) := by
  cases gap with
  | none => exact wsList_nil
  | some g =>
    intro c hc
    rcases List.mem_cons.mp hc with rfl | hc
    · decide
    · exact hind c hc

theorem commaSep_eq (gap : Option (List Char)) (ind' : List Char) (h : wsList ind') :
    ∃ cst, commaSep gap ind' = ',' :: cst ∧ wsList cst := by
  cases gap with
  | none => exact ⟨[], rfl, wsList_nil⟩
  | some g =>
    refine ⟨'\n' :: ind', rfl, ?_⟩
    intro c hc
    rcases List.mem_cons.mp hc with rfl | hc
    · decide
    · exact h c hc

theorem colonSep_eq (gap : Option (List Char)) :
    ∃ ct, colonSep gap = ':' :: ct ∧ wsList ct := by
  cases gap with
  | none => exact ⟨[], rfl, wsList_nil⟩
  | some g =>
    refine ⟨[' '], rfl, ?_⟩
    intro c hc
    rcases List.mem_cons.mp hc with rfl | hc
    · decide
    · cases hc

theorem jfuel_pos (j : Json) : 1 ≤ jfuel j := by
  cases j <;> simp [jfuel]

theorem printJson_starter (gap : Option (List Char)) (ind : List Char) (j : Json) :
    ∃ c r, printJson gap ind j = c :: r ∧ isWsChar c = false ∧ c ≠ ']' := by
  cases j with
  | null => exact ⟨'n', _, rfl, by decide, by decide⟩
  | bool b =>
    cases b
    · exact ⟨'f', _, rfl, by decide, by decide⟩
    · exact ⟨'t', _, rfl, by decide, by decide⟩
  | num n =>
    cases h : natDigits n with
    | nil => exact absurd h (natDigits_ne_nil n)
    | cons c cs =>
      have hc : isDigitChar c = true :=
        natDigits_all_digits n c (h ▸ List.mem_cons_self c cs)
      exact ⟨c, cs, by show natDigits n = c :: cs; exact h,
        not_ws_of_digit hc, (digit_not_special hc).2.2.2.2.2.2.1⟩
  | str s => exact ⟨'"', _, rfl, by decide, by decide⟩
  | arr a =>
    cases a
    · exact ⟨'[', _, rfl, by decide, by decide⟩
    · exact ⟨'[', _, rfl, by decide, by decide⟩
  | obj o =>
    cases o
    · exact ⟨'\x7b', _, rfl, by decide, by decide⟩
    · exact ⟨'\x7b', _, rfl, by decide, by decide⟩


theorem parse_print_master : ∀ fuel : Nat,
    (∀ (j : Json) (gap : Option (List Char)) (ind rest : List Char),
      jfuel j ≤ fuel → gapOk gap → wsList ind → notDigitStart rest →
      parseV fuel (printJson gap ind j ++ rest) = some (j, rest)) ∧
    (∀ (gap : Option (List Char)) (ind : List Char) (j : Json) (tl : JArr)
      (ws tail rest : List Char),
      afuel (.cons j tl) ≤ fuel → gapOk gap → wsList ind → wsList ws →
      skipWs tail = ']' :: rest →
      parseItems fuel
        (ws ++ (printJson gap ind j ++ (printArrRest gap ind tl ++ tail))) =
        some (.cons j tl, rest)) ∧
    (∀ (gap : Option (List Char)) (ind : List Char) (k : String) (v : Json)
      (tl : JObj) (ws tail rest : List Char),
      ofuel (.cons k v tl) ≤ fuel → gapOk gap → wsList ind → wsList ws →
      skipWs tail = '\x7d' :: rest →
      parseMembers fuel
        (ws ++ (escString k ++ (colonSep gap ++
          (printJson gap ind v ++ (printObjRest gap ind tl ++ tail))))) =
        some (.cons k v tl, rest)) := by
  intro fuel
  induction fuel with
  | zero =>
    refine ⟨?_, ?_, ?_⟩
    · intro j _ _ _ hf _ _ _
      exact absurd (le_trans (jfuel_pos j) hf) (by omega)
    · intro _ _ j tl _ _ _ hf _ _ _ _
      simp [afuel] at hf
    · intro _ _ k v tl _ _ _ hf _ _ _ _
      simp [ofuel] at hf
  | succ fuel ih =>
    obtain ⟨pv, pitems, pmembers⟩ := ih
    refine ⟨?_, ?_, ?_⟩
    · -- parseV on a printed value
      intro j gap ind rest hf hgap hind hrest
      cases j with
      | null =>
        show parseV (fuel + 1) ('n' :: 'u' :: 'l' :: 'l' :: rest) = some (.null, rest)
        unfold parseV
        rw [skipWs_cons_not (by decide)]
        simp [dropLit]
      | bool b =>
        cases b
        · show parseV (fuel + 1) ('f' :: 'a' :: 'l' :: 's' :: 'e' :: rest) =
            some (.bool false, rest)
          unfold parseV
          rw [skipWs_cons_not (by decide)]
          simp [dropLit]
        · show parseV (fuel + 1) ('t' :: 'r' :: 'u' :: 'e' :: rest) =
            some (.bool true, rest)
          unfold parseV
          rw [skipWs_cons_not (by decide)]
          simp [dropLit]
      | num n =>
        show parseV (fuel + 1) (natDigits n ++ rest) = some (.num n, rest)
        cases h : natDigits n with
        | nil => exact absurd h (natDigits_ne_nil n)
        | cons c cs =>
          have hdig := natDigits_all_digits n
          have hc : isDigitChar c = true := hdig c (h ▸ List.mem_cons_self c cs)
          obtain ⟨hq, hlb, hob, ht, hf', hn', _, _, _⟩ := digit_not_special hc
          have htd : takeDigits (c :: (cs ++ rest)) = (c :: cs, rest) := by
            have := @takeDigits_append (c :: cs) rest (h ▸ hdig) hrest
            rw [List.cons_append] at this
            exact this
          show parseV (fuel + 1) (c :: (cs ++ rest)) = some (.num n, rest)
          unfold parseV
          rw [skipWs_cons_not (not_ws_of_digit hc)]
          simp only [hq, hlb, hob, ht, hf', hn', hc, if_false, if_true,
            ite_false, ite_true, htd]
          rw [show (c :: cs) = natDigits n from h.symm, digitsVal_natDigits]
      | str s =>
        show parseV (fuel + 1) (('"' :: (escChars s.data ++ ['"'])) ++ rest) =
          some (.str s, rest)
        unfold parseV
        rw [List.cons_append, skipWs_cons_not (by decide)]
        simp [List.append_assoc, parseStrBody_esc, string_mk_data]
      | arr a =>
        cases a with
        | nil =>
          show parseV (fuel + 1) ('[' :: ']' :: rest) = some (.arr .nil, rest)
          unfold parseV
          rw [skipWs_cons_not (by decide)]
          simp [skipWs_cons_not (show isWsChar ']' = false from by decide)]
        | cons j tl =>
          show parseV (fuel + 1)
            (('[' :: (openSep gap (ind ++ gap.getD []) ++
              printJson gap (ind ++ gap.getD []) j ++
              printArrRest gap (ind ++ gap.getD []) tl ++
              closeSep gap ind ++ [']'])) ++ rest) = some (.arr (.cons j tl), rest)
          have hind' : wsList (ind ++ gap.getD []) := wsList_indGap hgap hind
          obtain ⟨c, pr, hpr, hnws, hne⟩ := printJson_starter gap (ind ++ gap.getD []) j
          have hfa : afuel (.cons j tl) ≤ fuel := by
            simp only [jfuel] at hf
            omega
          have htail : skipWs (closeSep gap ind ++ (']' :: rest)) = ']' :: rest := by
            rw [skipWs_append (closeSep_ws hind), skipWs_cons_not (by decide)]
          have hit := pitems gap (ind ++ gap.getD []) j tl []
            (closeSep gap ind ++ (']' :: rest)) rest hfa hgap hind' wsList_nil htail
          rw [List.nil_append] at hit
          unfold parseV
          rw [List.cons_append, skipWs_cons_not (by decide)]
          rw [hpr] at hit
          simp only [List.cons_append, List.append_assoc, List.nil_append] at hit
          simp [skipWs_append (openSep_ws hind'), hpr, skipWs_cons_not hnws, hne, hit]
      | obj o =>
        cases o with
        | nil =>
          show parseV (fuel + 1) ('\x7b' :: '\x7d' :: rest) = some (.obj .nil, rest)
          unfold parseV
          rw [skipWs_cons_not (by decide)]
          simp [skipWs_cons_not (show isWsChar '\x7d' = false from by decide)]
        | cons k v tl =>
          show parseV (fuel + 1)
            (('\x7b' :: (openSep gap (ind ++ gap.getD []) ++
              escString k ++ colonSep gap ++
              printJson gap (ind ++ gap.getD []) v ++
              printObjRest gap (ind ++ gap.getD []) tl ++
              closeSep gap ind ++ ['\x7d'])) ++ rest) =
            some (.obj (.cons k v tl), rest)
          have hind' : wsList (ind ++ gap.getD []) := wsList_indGap hgap hind
          have hfo : ofuel (.cons k v tl) ≤ fuel := by
            simp only [jfuel] at hf
            omega
          have htail : skipWs (closeSep gap ind ++ ('\x7d' :: rest)) = '\x7d' :: rest := by
            rw [skipWs_append (closeSep_ws hind), skipWs_cons_not (by decide)]
          have hmem := pmembers gap (ind ++ gap.getD []) k v tl []
            (closeSep gap ind ++ ('\x7d' :: rest)) rest hfo hgap hind' wsList_nil htail
          rw [List.nil_append] at hmem
          unfold parseV
          rw [List.cons_append, skipWs_cons_not (by decide)]
          rw [show escString k = '"' :: (escChars k.data ++ ['"']) from rfl] at hmem
          simp only [List.cons_append, List.append_assoc, List.nil_append] at hmem
          simp [skipWs_append (openSep_ws hind'),
            show escString k = '"' :: (escChars k.data ++ ['"']) from rfl,
            skipWs_cons_not (show isWsChar '"' = false from by decide), hmem]
    · -- parseItems on printed items
      intro gap ind j tl ws tail rest hfa hgap hind hws htail
      have hrest1 : notDigitStart (printArrRest gap ind tl ++ tail) := by
        cases tl with
        | nil =>
          show notDigitStart ([] ++ tail)
          rw [List.nil_append]
          exact notDigitStart_of_skipWs htail (by decide)
        | cons j2 tl2 =>
          obtain ⟨cst, hcst, _⟩ := commaSep_eq gap ind hind
          show notDigitStart
            ((commaSep gap ind ++ printJson gap ind j2 ++ printArrRest gap ind tl2) ++ tail)
          rw [hcst]
          simp only [List.cons_append, List.append_assoc]
          show isDigitChar ',' = false
          decide
      have hfj : jfuel j ≤ fuel := by
        simp only [afuel] at hfa
        omega
      have hpv := pv j gap ind (printArrRest gap ind tl ++ tail) hfj hgap hind hrest1
      unfold parseItems
      rw [parseV_ws fuel hws]
      simp only [hpv]
      cases tl with
      | nil =>
        rw [show printArrRest gap ind JArr.nil = [] from rfl, List.nil_append]
        simp [htail]
      | cons j2 tl2 =>
        obtain ⟨cst, hcst, hcstws⟩ := commaSep_eq gap ind hind
        have hfa2 : afuel (.cons j2 tl2) ≤ fuel := by
          simp only [afuel] at hfa ⊢
          omega
        have hit := pitems gap ind j2 tl2 cst tail rest hfa2 hgap hind hcstws htail
        rw [show printArrRest gap ind (.cons j2 tl2) =
          commaSep gap ind ++ printJson gap ind j2 ++ printArrRest gap ind tl2 from rfl,
          hcst]
        simp only [List.cons_append, List.append_assoc]
        rw [skipWs_cons_not (by decide)]
        simp only [List.append_assoc] at hit
        simp [hit]
    · -- parseMembers on printed members
      intro gap ind k v tl ws tail rest hfo hgap hind hws htail
      have hrest1 : notDigitStart (printObjRest gap ind tl ++ tail) := by
        cases tl with
        | nil =>
          show notDigitStart ([] ++ tail)
          rw [List.nil_append]
          exact notDigitStart_of_skipWs htail (by decide)
        | cons k2 v2 tl2 =>
          obtain ⟨cst, hcst, _⟩ := commaSep_eq gap ind hind
          show notDigitStart
            ((commaSep gap ind ++ escString k2 ++ colonSep gap ++
              printJson gap ind v2 ++ printObjRest gap ind tl2) ++ tail)
          rw [hcst]
          simp only [List.cons_append, List.append_assoc]
          show isDigitChar ',' = false
          decide
      have hfv : jfuel v ≤ fuel := by
        simp only [ofuel] at hfo
        omega
      obtain ⟨ct, hcol, hcolws⟩ := colonSep_eq gap
      have hpv := pv v gap ind (printObjRest gap ind tl ++ tail) hfv hgap hind hrest1
      unfold parseMembers
      rw [skipWs_append hws,
        show escString k = '"' :: (escChars k.data ++ ['"']) from rfl,
        List.cons_append, skipWs_cons_not (by decide)]
      simp only [List.append_assoc]
      rw [List.singleton_append]
      simp only [parseStrBody_esc]
      rw [hcol]
      cases tl with
      | nil =>
        simp only [show printObjRest gap ind JObj.nil = [] from rfl,
          List.nil_append] at hpv
        simp [parseV_ws fuel hcolws, hpv, htail,
          show printObjRest gap ind JObj.nil = [] from rfl, string_mk_data,
          skipWs_cons_not (show isWsChar ':' = false from by decide)]
      | cons k2 v2 tl2 =>
        obtain ⟨cst, hcst, hcstws⟩ := commaSep_eq gap ind hind
        have hfo2 : ofuel (.cons k2 v2 tl2) ≤ fuel := by
          simp only [ofuel] at hfo ⊢
          omega
        have hmem := pmembers gap ind k2 v2 tl2 cst tail rest hfo2 hgap hind hcstws htail
        simp only [List.append_assoc] at hmem
        simp only [show printObjRest gap ind (JObj.cons k2 v2 tl2) =
            commaSep gap ind ++ escString k2 ++ colonSep gap ++
              printJson gap ind v2 ++ printObjRest gap ind tl2 from rfl,
          hcst, List.cons_append, List.append_assoc] at hpv
        simp [parseV_ws fuel hcolws, hpv,
          show printObjRest gap ind (JObj.cons k2 v2 tl2) =
            commaSep gap ind ++ escString k2 ++ colonSep gap ++
              printJson gap ind v2 ++ printObjRest gap ind tl2 from rfl,
          hcst, skipWs_cons_not (show isWsChar ':' = false from by decide),
          skipWs_cons_not (show isWsChar ',' = false from by decide),
          hmem, string_mk_data]

theorem jfuel_le_printLen : ∀ n : Nat,
    (∀ (j : Json) (gap : Option (List Char)) (ind : List Char),
      jfuel j ≤ n → jfuel j ≤ (printJson gap ind j).length) ∧
    (∀ (a : JArr) (gap : Option (List Char)) (ind : List Char),
      afuel a ≤ n → afuel a ≤ (printArrRest gap ind a).length) ∧
    (∀ (o : JObj) (gap : Option (List Char)) (ind : List Char),
      ofuel o ≤ n → ofuel o ≤ (printObjRest gap ind o).length) := by
  intro n
  induction n with
  | zero =>
    refine ⟨?_, ?_, ?_⟩
    · intro j _ _ hf
      exact absurd (le_trans (jfuel_pos j) hf) (by omega)
    · intro a _ _ hf
      cases a with
      | nil => simp [afuel]
      | cons j tl => simp [afuel] at hf
    · intro o _ _ hf
      cases o with
      | nil => simp [ofuel]
      | cons k v tl => simp [ofuel] at hf
  | succ n ih =>
    obtain ⟨ihj, iha, iho⟩ := ih
    refine ⟨?_, ?_, ?_⟩
    · intro j gap ind hf
      cases j with
      | null => simp [jfuel, printJson]
      | bool b => cases b <;> simp [jfuel, printJson]
      | num m =>
        have h := natDigits_ne_nil m
        show jfuel (.num m) ≤ (natDigits m).length
        have : 0 < (natDigits m).length := List.length_pos.mpr h
        simp [jfuel]
        omega
      | str s =>
        show jfuel (.str s) ≤ (escString s).length
        simp [jfuel, escString]
      | arr a =>
        cases a with
        | nil => simp [jfuel, afuel, printJson]
        | cons j tl =>
          have h1 : jfuel j ≤ n := by simp only [jfuel, afuel] at hf; omega
          have h2 : afuel tl ≤ n := by simp only [jfuel, afuel] at hf; omega
          have g1 := ihj j gap (ind ++ gap.getD []) h1
          have g2 := iha tl gap (ind ++ gap.getD []) h2
          simp only [jfuel, afuel] at *
          simp [printJson, List.length_append]
          omega
      | obj o =>
        cases o with
        | nil => simp [jfuel, ofuel, printJson]
        | cons k v tl =>
          have h1 : jfuel v ≤ n := by simp only [jfuel, ofuel] at hf; omega
          have h2 : ofuel tl ≤ n := by simp only [jfuel, ofuel] at hf; omega
          have g1 := ihj v gap (ind ++ gap.getD []) h1
          have g2 := iho tl gap (ind ++ gap.getD []) h2
          simp only [jfuel, ofuel] at *
          simp [printJson, List.length_append, escString]
          omega
    · intro a gap ind hf
      cases a with
      | nil => simp [afuel]
      | cons j tl =>
        have h1 : jfuel j ≤ n := by simp only [afuel] at hf; omega
        have h2 : afuel tl ≤ n := by simp only [afuel] at hf; omega
        have g1 := ihj j gap ind h1
        have g2 := iha tl gap ind h2
        have hcs : 1 ≤ (commaSep gap ind).length := by
          cases gap <;> simp [commaSep]
        simp only [afuel] at *
        simp [printArrRest, List.length_append]
        omega
    · intro o gap ind hf
      cases o with
      | nil => simp [ofuel]
      | cons k v tl =>
        have h1 : jfuel v ≤ n := by simp only [ofuel] at hf; omega
        have h2 : ofuel tl ≤ n := by simp only [ofuel] at hf; omega
        have g1 := ihj v gap ind h1
        have g2 := iho tl gap ind h2
        have hcs : 1 ≤ (commaSep gap ind).length := by
          cases gap <;> simp [commaSep]
        simp only [ofuel] at *
        simp [printObjRest, List.length_append, escString]
        omega

theorem parse_printJson (gap : Option (List Char)) (hgap : gapOk gap) (j : Json) :
    parseJson (printJson gap [] j) = some j := by
  unfold parseJson
  have hlen : jfuel j ≤ (printJson gap [] j).length + 1 :=
    le_trans ((jfuel_le_printLen (jfuel j)).1 j gap [] le_rfl) (by omega)
  have h := (parse_print_master ((printJson gap [] j).length + 1)).1
    j gap [] [] hlen hgap wsList_nil trivial
  rw [List.append_nil] at h
  simp [h, skipWs]

/-- C9: Emitter round-trip — parsing the emitted `agents.json` document
back yields exactly the JSON document of the in-memory merged model, and
`data.js` is the header plus the *same* document (compact form) bound as
its constant; the compact document parses back to the same model too, so
both artifacts are derivable from the one in-memory model. -/
theorem emitter_roundtrip (inp : BuildInputs) :
    parseJson (agentsJsonText inp) = some (dataJson (build inp)) ∧
    dataJsText inp =
      moduleHeader ++ printJson none [] (dataJson (build inp)) ++ [';', '\n'] ∧
    parseJson (printJson none [] (dataJson (build inp))) =
      some (dataJson (build inp)) := by
  refine ⟨?_, rfl, ?_⟩
  · refine parse_printJson (some [' ', ' ']) ?_ _
    intro c hc
    rcases List.mem_cons.mp hc with rfl | hc
    · decide
    · rcases List.mem_cons.mp hc with rfl | hc
      · decide
      · cases hc
  · exact parse_printJson none trivial _
